import Mathlib

/-!
Shallow embedding of `blade_design_tool.py` (blade geometry transform
pipeline): the geometry record built from the two input files (lines 52-56),
the normalized-radius coordinate (lines 59-60), the six modifier blocks
(lines 79-154), the twist resampling for the configuration file (line 164),
the copy/abort phase (lines 171-177) and the two file rewrite loops
(lines 179-220).  Machine floats are modelled as rationals; the numeric
serialization `str(...)` used by the rewrite loops is an explicit function
parameter `fmt`.
-/

namespace Blade

/-- One row of `geo_mat` / `working_mat` (columns 0..3 of the N×4 matrix
built at lines 52-56: radius, twist, chord, relative thickness). -/
structure Row where
  radius : ℚ
  twist : ℚ
  chord : ℚ
  relThickness : ℚ
deriving DecidableEq, Repr

instance : Inhabited Row := ⟨⟨0, 0, 0, 0⟩⟩

/-- Model of `np.interp(x, xp, fp)` on the zipped knot list, for increasing
`xp`: clamp to `fp[0]` below the first knot, to `fp[-1]` at or beyond the
last knot, piecewise-linear in between.  numpy performs no monotonicity
check, so the function is total; on an empty knot list (numpy would raise
for empty `xp`, a case the script never produces) it returns 0. -/
def interpKnots (x : ℚ) : List (ℚ × ℚ) → ℚ
  | [] => 0
  | [(_, y0)] => y0
  | (x0, y0) :: (x1, y1) :: rest =>
    if x < x0 then y0
    else if x < x1 then y0 + (y1 - y0) * (x - x0) / (x1 - x0)
    else interpKnots x ((x1, y1) :: rest)

/-- `np.interp(x, xp, fp)` with the two coordinate arrays passed separately,
as at lines 54 and 164. -/
def npInterp (x : ℚ) (xp fp : List ℚ) : ℚ :=
  interpKnots x (xp.zip fp)

/-- Lines 52-56: build the `.geo` equivalent matrix from the element-table
columns (`radius`, `chord`, `rel_thickness`, from `np.loadtxt` of the ae
file) and the twist sub-table columns (`twist[:,0]`, `twist[:,1]`, from
`np.genfromtxt` of the htc file); column 1 is the twist resampled onto the
element radius grid by `np.interp`. -/
def mkGeoMat (radius chord relThickness twistRadii twistVals : List ℚ) :
    List Row :=
  List.zipWith3 (fun r c th => ⟨r, npInterp r twistRadii twistVals, c, th⟩)
    radius chord relThickness

/-- Error vocabulary of the reader contract (spec §4.1/§7).  The script's
read path raises none of these: `np.interp` does not validate monotonicity. -/
inductive ReadError where
  | malformedInput
deriving DecidableEq, Repr

/-- The FormatReader numeric core, wrapped in `Except` so that the spec's
failure claims about reading are statable; the code (lines 46-56) has no
failure path in the reconciliation step, so the result is always `.ok`. -/
def formatRead (radius chord relThickness twistRadii twistVals : List ℚ) :
    Except ReadError (List Row) :=
  .ok (mkGeoMat radius chord relThickness twistRadii twistVals)

/-- Lines 59-60: `R = geo_mat[:,0][-1]`, `radius_nd = geo_mat[:,0] / R`.
On an empty matrix numpy would raise; the default 0 is never exercised. -/
def radiusNd (mat : List Row) : List ℚ :=
  let R := (mat.map Row.radius).getLastD 0
  (mat.map Row.radius).map (· / R)

/-- Error raised by the modifier phase: models the Python `IndexError` from
`manual_multiplier[i]` at line 143 when the weight list is too short, the
condition the spec names `ConfigurationError`. -/
inductive ModError where
  | configurationError
deriving DecidableEq, Repr

/-- Lines 79-89: linearly changing addition to chord length at the root.
`working_mat[i,2] -= chord_addition * (radius_nd[i] - 1.0)` for sections
with `radius_nd[i] <= changes_until`.  The source hardcodes
`chord_addition = -1.0` and `changes_until = 0.25`; they are parameters
here (`amount`, `t`), as the spec's configuration structure requires. -/
def rootLinearChordAddition (amount t : ℚ) (radius_nd : List ℚ)
    (mat : List Row) : List Row :=
  List.zipWith
    (fun r row =>
      if r ≤ t then { row with chord := row.chord - amount * (r - 1) }
      else row)
    radius_nd mat

/-- Lines 92-102: negative-cosine chord addition at the tip, for sections
with `radius_nd[i] >= changes_from`.  The multiplier array
`ncos_multiplier = -np.cos(radius_nd * np.pi)` is precomputed by the code
(line 94) and is a parameter `ncos` here, cosine being transcendental. -/
def tipCosChordAddition (amount t : ℚ) (ncos radius_nd : List ℚ)
    (mat : List Row) : List Row :=
  List.zipWith3
    (fun r n row =>
      if t ≤ r then { row with chord := row.chord + amount * n } else row)
    radius_nd ncos mat

/-- Lines 105-110: negative-cosine chord addition along the whole blade,
vectorized with no selection predicate; `ncos` as above (line 107). -/
def cosChordAddition (amount : ℚ) (ncos : List ℚ) (mat : List Row) :
    List Row :=
  List.zipWith
    (fun n row => { row with chord := row.chord + amount * n }) ncos mat

/-- Lines 113-123: linear twist addition at the root,
`working_mat[i,1] += twist_addition * (-(radius_nd[i] - 1.0))` for
`radius_nd[i] <= changes_until`. -/
def twistTheRoot (amount t : ℚ) (radius_nd : List ℚ) (mat : List Row) :
    List Row :=
  List.zipWith
    (fun r row =>
      if r ≤ t then { row with twist := row.twist + amount * (-(r - 1)) }
      else row)
    radius_nd mat

/-- Recursion of `supertwist_the_root` (lines 139-144): walk the sections
with the running index `i`; at a selected section read `weights[i]`
(Python list indexing: out of range raises, modelled as
`ModError.configurationError`). -/
def supertwistGo (amount t : ℚ) (weights : List ℚ) :
    Nat → List (ℚ × Row) → Except ModError (List Row)
  | _, [] => .ok []
  | i, (r, row) :: rest =>
    if r ≤ t then
      match weights.get? i with
      | some w =>
        (supertwistGo amount t weights (i + 1) rest).map
          (fun tl => { row with twist := row.twist + amount * w } :: tl)
      | none => .error .configurationError
    else
      (supertwistGo amount t weights (i + 1) rest).map (fun tl => row :: tl)

/-- Lines 127-144: manual twisting of the root,
`working_mat[i,1] += twist_addition * manual_multiplier[i]` for
`radius_nd[i] <= changes_until`.  The source hardcodes the wdr1 weight
list, `twist_addition = -64.0`, `changes_until = 0.25`. -/
def supertwistTheRoot (amount t : ℚ) (weights radius_nd : List ℚ)
    (mat : List Row) : Except ModError (List Row) :=
  supertwistGo amount t weights 0 (radius_nd.zip mat)

/-- Lines 147-154: cylindrical root airfoil, `working_mat[i,3] = 100.0`
for `radius_nd[i] <= changes_until` (hardcoded `changes_until = 0.25`). -/
def makeRootCylindrical (t : ℚ) (radius_nd : List ℚ) (mat : List Row) :
    List Row :=
  List.zipWith
    (fun r row =>
      if r ≤ t then { row with relThickness := 100 } else row)
    radius_nd mat

/-- The modifier toggles and parameters (spec §4.2 configuration
structure; the booleans are the module-level flags at lines 79, 92, 105,
113, 127, 147). -/
structure Config where
  rootLinear : Bool
  rootLinearAmount : ℚ
  rootLinearThreshold : ℚ
  tipCos : Bool
  tipCosAmount : ℚ
  tipCosThreshold : ℚ
  cosFull : Bool
  cosFullAmount : ℚ
  twistRoot : Bool
  twistRootAmount : ℚ
  twistRootThreshold : ℚ
  supertwist : Bool
  supertwistAmount : ℚ
  supertwistThreshold : ℚ
  supertwistWeights : List ℚ
  makeCyl : Bool
  makeCylThreshold : ℚ

/-- The modifier stack in source order (lines 79-154): each block applies
when its flag is on, over the buffer produced by the previous block. -/
def applyStack (cfg : Config) (ncos radius_nd : List ℚ) (mat : List Row) :
    Except ModError (List Row) :=
  let m1 := if cfg.rootLinear then
      rootLinearChordAddition cfg.rootLinearAmount cfg.rootLinearThreshold
        radius_nd mat
    else mat
  let m2 := if cfg.tipCos then
      tipCosChordAddition cfg.tipCosAmount cfg.tipCosThreshold ncos
        radius_nd m1
    else m1
  let m3 := if cfg.cosFull then cosChordAddition cfg.cosFullAmount ncos m2
    else m2
  let m4 := if cfg.twistRoot then
      twistTheRoot cfg.twistRootAmount cfg.twistRootThreshold radius_nd m3
    else m3
  match (if cfg.supertwist then
      supertwistTheRoot cfg.supertwistAmount cfg.supertwistThreshold
        cfg.supertwistWeights radius_nd m4
    else .ok m4) with
  | .error e => .error e
  | .ok m5 =>
    .ok (if cfg.makeCyl then
        makeRootCylindrical cfg.makeCylThreshold radius_nd m5
      else m5)

/-- The configuration the script actually runs (flags and hardcoded
parameters of lines 79-154; the wdr1 manual multiplier list of line 135). -/
def scriptCfg : Config where
  rootLinear := true
  rootLinearAmount := -1
  rootLinearThreshold := 1/4
  tipCos := false
  tipCosAmount := -1/2
  tipCosThreshold := 3/5
  cosFull := false
  cosFullAmount := 1
  twistRoot := false
  twistRootAmount := -13
  twistRootThreshold := 1/4
  supertwist := true
  supertwistAmount := -64
  supertwistThreshold := 1/4
  supertwistWeights :=
    [1, 4/5, 81/100, 79/100, 11/20, 61/100, 1/2, 9/20, 39/100, 17/50,
     8/25, 31/100, 3/10]
  makeCyl := false
  makeCylThreshold := 1/4

/-- Lines 71-72 plus the modifier blocks: the design phase starts from
`working_mat = geo_mat.copy()` and mutates only the working buffer; the
baseline `geo_mat` is returned alongside the stack's output. -/
def runDesignPhase (cfg : Config) (ncos : List ℚ) (geo : List Row) :
    Except ModError (List Row × List Row) :=
  let working := geo
  (applyStack cfg ncos (radiusNd geo) working).map (fun w => (geo, w))

/-- A configuration with every modifier flag off (the empty modifier
stack of the round-trip property). -/
def offCfg : Config where
  rootLinear := false
  rootLinearAmount := 0
  rootLinearThreshold := 0
  tipCos := false
  tipCosAmount := 0
  tipCosThreshold := 0
  cosFull := false
  cosFullAmount := 0
  twistRoot := false
  twistRootAmount := 0
  twistRootThreshold := 0
  supertwist := false
  supertwistAmount := 0
  supertwistThreshold := 0
  supertwistWeights := []
  makeCyl := false
  makeCylThreshold := 0

/-- A zero-amount configuration that enables only the cylindrical root
override, with the source's hardcoded threshold 0.25 (line 149). -/
def cylOnlyCfg : Config :=
  { offCfg with makeCyl := true, makeCylThreshold := 1/4 }

/-! ### FormatWriter: the file rewrite loops (lines 163-220) -/

/-- Line 21: `design_name = "WDR_10_MW"`. -/
def designName : String := "WDR_10_MW"

/-- Line 40. -/
def htcStartLine : Nat := 110

/-- Line 41. -/
def nSec : Nat := 27

/-- Line 42: `htc_end_line = htc_start_line + n_sec`. -/
def htcEndLine : Nat := htcStartLine + nSec

/-- Line 43. -/
def aeStartLine : Nat := 2

/-- Line 164: `htc_twist = np.interp(twist_radii, working_mat[:,0],
working_mat[:,1])`, vectorized over the query points. -/
def htcTwist (twistRadii : List ℚ) (working : List Row) : List ℚ :=
  twistRadii.map (fun q => npInterp q (working.map Row.radius)
    (working.map Row.twist))

/-- Python's substring test `pat in s`. -/
def strContains (s pat : String) : Bool :=
  strContainsAux pat.toList s.toList
where
  strContainsAux (p : List Char) : List Char → Bool
    | [] => p.isEmpty
    | c :: rest => List.isPrefixOf p (c :: rest) || strContainsAux p rest

/-- Python `str.strip()`: drop whitespace from both ends. -/
def pyStrip (s : String) : String :=
  String.mk (((s.toList.dropWhile Char.isWhitespace).reverse.dropWhile
    Char.isWhitespace).reverse)

/-- Python `str.split(sep)` on a `List Char`, for a one-character
separator: split at every occurrence, keeping empty pieces (a run of two
separators yields an empty token, as in Python). -/
def pySplitChar (sep : Char) : List Char → List (List Char)
  | [] => [[]]
  | c :: rest =>
    match pySplitChar sep rest with
    | [] => [[]]
    | t :: ts => if c = sep then [] :: t :: ts else (c :: t) :: ts

/-- Python `str.split(sep)` for a one-character separator. -/
def pySplit (sep : Char) (s : String) : List String :=
  (pySplitChar sep s.toList).map String.mk

/-- Line 188: the replacement written for a line containing
`ae_filename`. -/
def aeRefLine : String := "\tae_filename ./data/" ++ designName ++ "_ae.dat;\n"

/-- Lines 190-195: rebuild one twist-table line: strip, split on a single
space, remove the first empty token if any (the single-digit-section
alignment case), overwrite token 4 with the serialized twist plus `;\n`,
join with single spaces and prefix two tabs.  Python would raise
`IndexError` on fewer than 5 tokens; `List.set` is a no-op there, and the
theorems assume at least 5 tokens. -/
def rebuildHtcLine (twistStr : String) (line : String) : String :=
  let toks := pySplit ' ' (pyStrip line)
  let toks := if toks.contains "" then toks.erase "" else toks
  let toks := toks.set 4 (twistStr ++ ";\n")
  "\t\t" ++ String.intercalate " " toks

/-- `for i, line in enumerate(file)` with a running start index. -/
def mapIdxFrom (f : Nat → α → β) : Nat → List α → List β
  | _, [] => []
  | i, a :: as => f i a :: mapIdxFrom f (i + 1) as

/-- Lines 185-200: the configuration-file rewrite.  Each line in the
twist-table range is rebuilt (this assignment overwrites the
`ae_filename` replacement when both conditions hold, since the Python
loop assigns `content[i]` twice in that order); outside the range a line
containing `ae_filename` is replaced by `aeRefLine`; every other line is
written back unchanged.  `twistStrs` is the serialized `htc_twist`. -/
def newHtcContent (twistStrs : List String) (content : List String) :
    List String :=
  mapIdxFrom
    (fun i line =>
      if htcStartLine ≤ i ∧ i < htcEndLine then
        rebuildHtcLine (twistStrs.getD (i - htcStartLine) "") line
      else if strContains line "ae_filename" then aeRefLine
      else line)
    0 content

/-- Lines 211-215: rebuild one element-table data row: strip, split on
tabs, overwrite tokens 0, 1, 2 with the serialized radius, chord and
relative thickness of the record row, join with tabs and append a
newline.  Python would raise `IndexError` on fewer than 3 tokens;
`List.set` is a no-op there, and the theorems assume at least 3 tokens. -/
def rebuildAeLine (fmt : ℚ → String) (row : Row) (line : String) : String :=
  let toks := pySplit '\t' (pyStrip line)
  let toks := toks.set 0 (fmt row.radius)
  let toks := toks.set 1 (fmt row.chord)
  let toks := toks.set 2 (fmt row.relThickness)
  String.intercalate "\t" toks ++ "\n"

/-- Lines 208-220: the element-table rewrite.  Rows at index ≥ 2 are
rebuilt from `working_mat[i-2]`; Python would raise past the end of
`working_mat`, modelled by `getD` with a default that well-formed input
(at most `2 + mat.length` lines) never reaches. -/
def newAeContent (fmt : ℚ → String) (mat : List Row)
    (content : List String) : List String :=
  mapIdxFrom
    (fun i line =>
      if aeStartLine ≤ i then
        rebuildAeLine fmt (mat.getD (i - aeStartLine) default) line
      else line)
    0 content

/-- Lines 163-220 combined: resample the working twists back onto the
configuration file's radius grid and rewrite both files. -/
def writePhase (fmt : ℚ → String) (twistRadii : List ℚ)
    (working : List Row) (htcContent aeContent : List String) :
    List String × List String :=
  (newHtcContent ((htcTwist twistRadii working).map fmt) htcContent,
   newAeContent fmt working aeContent)

/-! ### The copy/abort phase (lines 168-177) -/

/-- Line 168 with `design_name` interpolated. -/
def newHtcPathStr : String :=
  "D:\\AE EWEM MSc\\T H E S I S\\6_code\\code repository\\my_dtu_10mw\\WDR_10_MW.htc"

/-- Line 169 with `design_name` interpolated. -/
def newAePathStr : String :=
  "D:\\AE EWEM MSc\\T H E S I S\\6_code\\code repository\\my_dtu_10mw\\data\\WDR_10_MW_ae.dat"

/-- Lines 171-177: copy the two originals to the working paths; any
`shutil.copy` failure (outcome given by the oracle `copyOk`) prints and
`quit()`s.  The state is the set of files created so far; `.error` is the
aborted run carrying that state, and the rewrite loops (lines 179-220)
run only after `.ok` and create no paths beyond the two copies. -/
def copyPhase (copyOk : String → Bool) (fs : List String) :
    Except (List String) (List String) :=
  if copyOk newHtcPathStr then
    let fs1 := newHtcPathStr :: fs
    if copyOk newAePathStr then .ok (newAePathStr :: fs1)
    else .error fs1
  else .error fs

/-! ### Concrete inputs used by counterexamples and witnesses -/

/-- A well-formed configuration-file image: an `ae_filename` reference
line at index 50 pointing at the baseline element table, twist-table
lines at indices 110-136, comment filler elsewhere. -/
def htcExampleLine (i : Nat) : String :=
  if i = 50 then "\tae_filename ./data/DTU_10MW_RWT_ae.dat;\n"
  else if 110 ≤ i ∧ i < 137 then "\t\tsec 1 0.0 0.0 0.0 -14.5 ;\n"
  else ";\n"

/-- The configuration-file image as a 140-line list. -/
def htcExample : List String := (List.range 140).map htcExampleLine

/-! ### Helper lemmas -/

theorem exceptMap_eq_ok {ε α β : Type} {f : α → β} {e : Except ε α} {b : β} :
    e.map f = .ok b ↔ ∃ a, e = .ok a ∧ f a = b := by
  cases e <;> simp [Except.map]

theorem mapIdxFrom_getElem? {α β : Type} (f : Nat → α → β) :
    ∀ (l : List α) (n k : Nat),
      (mapIdxFrom f n l)[k]? = (l[k]?).map (f (n + k)) := by
  intro l
  induction l with
  | nil => intro n k; simp [mapIdxFrom]
  | cons a as ih =>
    intro n k
    cases k with
    | zero => simp [mapIdxFrom]
    | succ k =>
      simp only [mapIdxFrom, List.getElem?_cons_succ, ih (n + 1) k]
      rw [Nat.add_assoc, Nat.add_comm 1 k]

theorem zip_getElem? {α β : Type} (l1 : List α) (l2 : List β) (k : Nat) :
    (l1.zip l2)[k]? = match l1[k]?, l2[k]? with
      | some a, some b => some (a, b)
      | _, _ => none := by
  simp only [List.zip, List.getElem?_zipWith]
  cases l1[k]? <;> cases l2[k]? <;> rfl

theorem zipWith_map_eq {α : Type} (f : ℚ → Row → Row) (g : Row → α)
    (hf : ∀ r row, g (f r row) = g row) :
    ∀ (l : List ℚ) (m : List Row), l.length = m.length →
      (List.zipWith f l m).map g = m.map g := by
  intro l
  induction l with
  | nil =>
    intro m h
    cases m with
    | nil => simp
    | cons _ _ => simp at h
  | cons r rs ih =>
    intro m h
    cases m with
    | nil => simp at h
    | cons row m' =>
      simp only [List.zipWith_cons_cons, List.map_cons, hf]
      rw [ih m' (by simpa using h)]

theorem zipWith3_map_eq {α : Type} (f : ℚ → ℚ → Row → Row) (g : Row → α)
    (hf : ∀ r n row, g (f r n row) = g row) :
    ∀ (l n : List ℚ) (m : List Row), l.length = m.length →
      n.length = m.length → (List.zipWith3 f l n m).map g = m.map g := by
  intro l
  induction l with
  | nil =>
    intro n m h _
    cases m with
    | nil => simp [List.zipWith3]
    | cons _ _ => simp at h
  | cons r rs ih =>
    intro n m h h'
    cases m with
    | nil => simp at h
    | cons row m' =>
      cases n with
      | nil => simp at h'
      | cons q n' =>
        simp only [List.zipWith3, List.map_cons, hf]
        rw [ih n' m' (by simpa using h) (by simpa using h')]

theorem zipWith_id_of (f : ℚ → Row → Row) (hf : ∀ r row, f r row = row) :
    ∀ (l : List ℚ) (m : List Row), l.length = m.length →
      List.zipWith f l m = m := by
  intro l
  induction l with
  | nil =>
    intro m h
    cases m with
    | nil => simp
    | cons _ _ => simp at h
  | cons r rs ih =>
    intro m h
    cases m with
    | nil => simp at h
    | cons row m' =>
      simp only [List.zipWith_cons_cons, hf]
      rw [ih m' (by simpa using h)]

theorem zipWith_zipWith_same {α β : Type} (f g : α → β → β) :
    ∀ (l : List α) (m : List β),
      List.zipWith f l (List.zipWith g l m) =
        List.zipWith (fun r row => f r (g r row)) l m := by
  intro l
  induction l with
  | nil => intro m; simp
  | cons r rs ih =>
    intro m
    cases m with
    | nil => simp
    | cons row m' => simp only [List.zipWith_cons_cons, ih]

theorem zipWith_length_eq {α β γ : Type} (f : α → β → γ)
    (l : List α) (m : List β) (h : l.length = m.length) :
    (List.zipWith f l m).length = m.length := by
  simp [List.length_zipWith, h]

theorem zipWith3_length_eq {α β γ δ : Type} (f : α → β → γ → δ) :
    ∀ (l : List α) (n : List β) (m : List γ), l.length = m.length →
      n.length = m.length → (List.zipWith3 f l n m).length = m.length := by
  intro l
  induction l with
  | nil =>
    intro n m h _
    cases m with
    | nil => simp [List.zipWith3]
    | cons _ _ => simp at h
  | cons r rs ih =>
    intro n m h h'
    cases m with
    | nil => simp at h
    | cons row m' =>
      cases n with
      | nil => simp at h'
      | cons q n' =>
        simp only [List.zipWith3, List.length_cons]
        rw [ih n' m' (by simpa using h) (by simpa using h')]

theorem supertwistGo_ok_length (a t : ℚ) (w : List ℚ) :
    ∀ (ps : List (ℚ × Row)) (i : Nat) (out : List Row),
      supertwistGo a t w i ps = .ok out → out.length = ps.length := by
  intro ps
  induction ps with
  | nil => intro i out h; simp [supertwistGo] at h; simp [← h]
  | cons p ps' ih =>
    intro i out h
    obtain ⟨r, row⟩ := p
    simp only [supertwistGo] at h
    by_cases hr : r ≤ t
    · rw [if_pos hr] at h
      cases hw : w.get? i with
      | some wk =>
        rw [hw] at h
        rw [exceptMap_eq_ok] at h
        obtain ⟨tl, htl, hout⟩ := h
        simp [← hout, ih (i + 1) tl htl]
      | none => rw [hw] at h; simp at h
    · rw [if_neg hr] at h
      rw [exceptMap_eq_ok] at h
      obtain ⟨tl, htl, hout⟩ := h
      simp [← hout, ih (i + 1) tl htl]

theorem supertwistGo_ok_getElem? (a t : ℚ) (w : List ℚ) :
    ∀ (ps : List (ℚ × Row)) (i : Nat) (out : List Row),
      supertwistGo a t w i ps = .ok out →
      ∀ (k : Nat) (r : ℚ) (row : Row), ps[k]? = some (r, row) →
        (t < r → out[k]? = some row) ∧
        (r ≤ t → ∃ wk, w.get? (i + k) = some wk ∧
          out[k]? = some { row with twist := row.twist + a * wk }) := by
  intro ps
  induction ps with
  | nil => intro i out _ k r row hk; simp at hk
  | cons p ps' ih =>
    intro i out h k r row hk
    obtain ⟨r0, row0⟩ := p
    simp only [supertwistGo] at h
    by_cases hr0 : r0 ≤ t
    · rw [if_pos hr0] at h
      cases hw : w.get? i with
      | some wk0 =>
        rw [hw] at h
        rw [exceptMap_eq_ok] at h
        obtain ⟨tl, htl, hout⟩ := h
        cases k with
        | zero =>
          simp only [List.getElem?_cons_zero, Option.some.injEq,
            Prod.mk.injEq] at hk
          obtain ⟨hr, hrow⟩ := hk
          subst hr; subst hrow
          constructor
          · intro hlt; exact absurd hr0 (not_le.mpr hlt)
          · intro _
            refine ⟨wk0, by simpa using hw, ?_⟩
            simp [← hout]
        | succ k' =>
          simp only [List.getElem?_cons_succ] at hk
          have := ih (i + 1) tl htl k' r row hk
          constructor
          · intro hlt
            simp [← hout, this.1 hlt]
          · intro hle
            obtain ⟨wk, hwk, hget⟩ := this.2 hle
            refine ⟨wk, ?_, by simp [← hout, hget]⟩
            rw [show i + (k' + 1) = i + 1 + k' by omega]
            exact hwk
      | none => rw [hw] at h; simp at h
    · rw [if_neg hr0] at h
      rw [exceptMap_eq_ok] at h
      obtain ⟨tl, htl, hout⟩ := h
      cases k with
      | zero =>
        simp only [List.getElem?_cons_zero, Option.some.injEq,
          Prod.mk.injEq] at hk
        obtain ⟨hr, hrow⟩ := hk
        subst hr; subst hrow
        constructor
        · intro _; simp [← hout]
        · intro hle; exact absurd hle hr0
      | succ k' =>
        simp only [List.getElem?_cons_succ] at hk
        have := ih (i + 1) tl htl k' r row hk
        constructor
        · intro hlt
          simp [← hout, this.1 hlt]
        · intro hle
          obtain ⟨wk, hwk, hget⟩ := this.2 hle
          refine ⟨wk, ?_, by simp [← hout, hget]⟩
          rw [show i + (k' + 1) = i + 1 + k' by omega]
          exact hwk

theorem supertwistGo_map_eq {α : Type} (a t : ℚ) (w : List ℚ) (g : Row → α)
    (hg : ∀ row x, g { row with twist := x } = g row) :
    ∀ (ps : List (ℚ × Row)) (i : Nat) (out : List Row),
      supertwistGo a t w i ps = .ok out →
      out.map g = (ps.map Prod.snd).map g := by
  intro ps
  induction ps with
  | nil => intro i out h; simp [supertwistGo] at h; simp [← h]
  | cons p ps' ih =>
    intro i out h
    obtain ⟨r, row⟩ := p
    simp only [supertwistGo] at h
    by_cases hr : r ≤ t
    · rw [if_pos hr] at h
      cases hw : w.get? i with
      | some wk =>
        rw [hw] at h
        rw [exceptMap_eq_ok] at h
        obtain ⟨tl, htl, hout⟩ := h
        simp [← hout, hg, ih (i + 1) tl htl]
      | none => rw [hw] at h; simp at h
    · rw [if_neg hr] at h
      rw [exceptMap_eq_ok] at h
      obtain ⟨tl, htl, hout⟩ := h
      simp [← hout, ih (i + 1) tl htl]

theorem supertwistGo_isOk_congr (a a' t : ℚ) (w : List ℚ) :
    ∀ (ps ps' : List (ℚ × Row)) (i : Nat),
      ps.map Prod.fst = ps'.map Prod.fst →
      (supertwistGo a t w i ps).isOk = (supertwistGo a' t w i ps').isOk := by
  intro ps
  induction ps with
  | nil =>
    intro ps' i h
    cases ps' with
    | nil => rfl
    | cons _ _ => simp at h
  | cons p ps0 ih =>
    intro ps' i h
    cases ps' with
    | nil => simp at h
    | cons q qs =>
      obtain ⟨r, row⟩ := p
      obtain ⟨r', row'⟩ := q
      simp only [List.map_cons, List.cons.injEq] at h
      obtain ⟨hr, htl⟩ := h
      subst hr
      simp only [supertwistGo]
      by_cases hrt : r ≤ t
      · rw [if_pos hrt, if_pos hrt]
        cases hw : w.get? i with
        | some wk =>
          have := ih qs (i + 1) htl
          cases h1 : supertwistGo a t w (i + 1) ps0 <;>
            cases h2 : supertwistGo a' t w (i + 1) qs <;>
              simp [h1, h2, Except.map, Except.isOk, Except.toBool] at this ⊢
        | none => rfl
      · rw [if_neg hrt, if_neg hrt]
        have := ih qs (i + 1) htl
        cases h1 : supertwistGo a t w (i + 1) ps0 <;>
          cases h2 : supertwistGo a' t w (i + 1) qs <;>
            simp [h1, h2, Except.map, Except.isOk, Except.toBool] at this ⊢

theorem supertwistGo_zero (t : ℚ) (w : List ℚ) :
    ∀ (ps : List (ℚ × Row)) (i : Nat) (out : List Row),
      supertwistGo 0 t w i ps = .ok out → out = ps.map Prod.snd := by
  intro ps
  induction ps with
  | nil => intro i out h; simp [supertwistGo] at h; simp [← h]
  | cons p ps' ih =>
    intro i out h
    obtain ⟨r, row⟩ := p
    simp only [supertwistGo] at h
    by_cases hr : r ≤ t
    · rw [if_pos hr] at h
      cases hw : w.get? i with
      | some wk =>
        rw [hw] at h
        rw [exceptMap_eq_ok] at h
        obtain ⟨tl, htl, hout⟩ := h
        have : ({ row with twist := row.twist + 0 * wk } : Row) = row := by
          cases row; simp
        simp [← hout, this, ih (i + 1) tl htl]
      | none => rw [hw] at h; simp at h
    · rw [if_neg hr] at h
      rw [exceptMap_eq_ok] at h
      obtain ⟨tl, htl, hout⟩ := h
      simp [← hout, ih (i + 1) tl htl]

theorem supertwistGo_error_of_exists (a t : ℚ) (w : List ℚ) :
    ∀ (ps : List (ℚ × Row)) (i : Nat),
      (∃ k r row, ps[k]? = some (r, row) ∧ r ≤ t ∧ w.length ≤ i + k) →
      supertwistGo a t w i ps = .error .configurationError := by
  intro ps
  induction ps with
  | nil => intro i h; obtain ⟨k, r, row, hk, -, -⟩ := h; simp at hk
  | cons p ps' ih =>
    intro i h
    obtain ⟨k, r, row, hk, hle, hlen⟩ := h
    obtain ⟨r0, row0⟩ := p
    simp only [supertwistGo]
    cases k with
    | zero =>
      simp only [List.getElem?_cons_zero, Option.some.injEq,
        Prod.mk.injEq] at hk
      obtain ⟨hr, -⟩ := hk
      subst hr
      rw [if_pos hle]
      have hwn : w.get? i = none := List.get?_eq_none.mpr (by omega)
      rw [hwn]
    | succ k' =>
      simp only [List.getElem?_cons_succ] at hk
      have herr : supertwistGo a t w (i + 1) ps' = .error .configurationError :=
        ih (i + 1) ⟨k', r, row, hk, hle, by omega⟩
      by_cases hr0 : r0 ≤ t
      · rw [if_pos hr0]
        cases hw : w.get? i with
        | some wk => rw [herr]; rfl
        | none => rfl
      · rw [if_neg hr0]
        rw [herr]; rfl

theorem countP_exists_ge (p : ℚ → Bool) :
    ∀ (l : List ℚ) (n : Nat), n < l.countP p →
      ∃ k r, l[k]? = some r ∧ p r = true ∧ n ≤ k := by
  intro l
  induction l with
  | nil => intro n h; rw [List.countP_nil] at h; omega
  | cons a l' ih =>
    intro n h
    rw [List.countP_cons] at h
    by_cases hp : p a = true
    · rw [if_pos hp] at h
      cases n with
      | zero => exact ⟨0, a, by simp, hp, Nat.zero_le 0⟩
      | succ n' =>
        obtain ⟨k, r, hk, hr, hnk⟩ := ih n' (by omega)
        exact ⟨k + 1, r, by simpa using hk, hr, by omega⟩
    · rw [if_neg hp] at h
      simp only [add_zero] at h
      obtain ⟨k, r, hk, hr, hnk⟩ := ih n h
      exact ⟨k + 1, r, by simpa using hk, hr, by omega⟩

theorem interpKnots_left (x x0 y0 : ℚ) (rest : List (ℚ × ℚ))
    (hp : List.Pairwise (fun p q : ℚ × ℚ => p.1 < q.1) ((x0, y0) :: rest))
    (hx : x ≤ x0) :
    interpKnots x ((x0, y0) :: rest) = y0 := by
  cases rest with
  | nil => rfl
  | cons p1 rest' =>
    obtain ⟨x1, y1⟩ := p1
    have h01 : x0 < x1 := by
      have := List.pairwise_cons.mp hp
      exact this.1 (x1, y1) (by simp)
    simp only [interpKnots]
    by_cases hlt : x < x0
    · rw [if_pos hlt]
    · rw [if_neg hlt]
      have hx0 : x = x0 := le_antisymm hx (not_lt.mp hlt)
      rw [if_pos (show x < x1 by rw [hx0]; exact h01)]
      rw [hx0]
      simp

theorem interpKnots_right (x : ℚ) :
    ∀ (rest : List (ℚ × ℚ)) (x0 y0 : ℚ),
      (∀ p ∈ (x0, y0) :: rest, p.1 ≤ x) →
      interpKnots x ((x0, y0) :: rest) = (((x0, y0) :: rest).getLastD (0, 0)).2 := by
  intro rest
  induction rest with
  | nil => intro x0 y0 _; rfl
  | cons p1 rest' ih =>
    intro x0 y0 hub
    obtain ⟨x1, y1⟩ := p1
    simp only [interpKnots]
    have h0 : x0 ≤ x := hub (x0, y0) (by simp)
    have h1 : x1 ≤ x := hub (x1, y1) (by simp)
    rw [if_neg (not_lt.mpr h0), if_neg (not_lt.mpr h1)]
    have := ih x1 y1 (fun p hp => hub p (List.mem_cons_of_mem _ hp))
    rw [this]
    simp only [List.getLastD_cons]

theorem pairwise_fst_zip {l1 l2 : List ℚ} (h : List.Pairwise (· < ·) l1) :
    List.Pairwise (fun p q : ℚ × ℚ => p.1 < q.1) (l1.zip l2) := by
  induction l1 generalizing l2 with
  | nil => simp
  | cons a l1' ih =>
    cases l2 with
    | nil => simp
    | cons b l2' =>
      rw [List.zip_cons_cons, List.pairwise_cons]
      obtain ⟨ha, htail⟩ := List.pairwise_cons.mp h
      refine ⟨?_, ih htail⟩
      intro p hp
      obtain ⟨p1, p2⟩ := p
      exact ha p1 (List.of_mem_zip hp).1

theorem zip_getLastD :
    ∀ (l1 l2 : List ℚ), l1.length = l2.length → l1 ≠ [] →
      (l1.zip l2).getLastD (0, 0) = (l1.getLastD 0, l2.getLastD 0) := by
  intro l1
  induction l1 with
  | nil => intro l2 _ hne; exact absurd rfl hne
  | cons a l1' ih =>
    intro l2 hlen _
    cases l2 with
    | nil => simp at hlen
    | cons b l2' =>
      rw [List.zip_cons_cons]
      cases l1' with
      | nil =>
        cases l2' with
        | nil => rfl
        | cons _ _ => simp at hlen
      | cons c l1'' =>
        cases l2' with
        | nil => simp at hlen
        | cons d l2'' =>
          have := ih (d :: l2'') (by simpa using hlen) (by simp)
          simp only [List.zip_cons_cons, List.getLastD_cons] at this ⊢
          exact this

theorem getLastD_mem_cons {α : Type} :
    ∀ (l : List α) (a d : α), (a :: l).getLastD d ∈ a :: l := by
  intro l
  induction l with
  | nil => intro a d; simp
  | cons b l' ih =>
    intro a d
    rw [List.getLastD_cons]
    exact List.mem_cons_of_mem _ (ih b a)

theorem pairwise_lt_le_of_getLastD {x : ℚ} :
    ∀ (l : List ℚ), List.Pairwise (· < ·) l → l.getLastD 0 ≤ x →
      ∀ xi ∈ l, xi ≤ x := by
  intro l
  induction l with
  | nil => intro _ _ xi hxi; simp at hxi
  | cons a l' ih =>
    intro hp hlast xi hxi
    obtain ⟨ha, htail⟩ := List.pairwise_cons.mp hp
    rw [List.getLastD_cons] at hlast
    rcases List.mem_cons.mp hxi with hxa | hxl
    · subst hxa
      cases l' with
      | nil => simpa using hlast
      | cons b l'' =>
        have hmem : (b :: l'').getLastD xi ∈ b :: l'' := getLastD_mem_cons l'' b xi
        have hlt : xi < (b :: l'').getLastD xi := ha _ hmem
        linarith
    · cases l' with
      | nil => simp at hxl
      | cons b l'' =>
        refine ih htail ?_ xi hxl
        have h1 : (b :: l'').getLastD 0 = (b :: l'').getLastD a := by
          rw [List.getLastD_cons, List.getLastD_cons]
        rw [h1]
        exact hlast

theorem zipWith3_id_of (f : ℚ → ℚ → Row → Row)
    (hf : ∀ r n row, f r n row = row) :
    ∀ (l n : List ℚ) (m : List Row), l.length = m.length →
      n.length = m.length → List.zipWith3 f l n m = m := by
  intro l
  induction l with
  | nil =>
    intro n m h _
    cases m with
    | nil => simp [List.zipWith3]
    | cons _ _ => simp at h
  | cons r rs ih =>
    intro n m h h'
    cases m with
    | nil => simp at h
    | cons row m' =>
      cases n with
      | nil => simp at h'
      | cons q n' =>
        simp only [List.zipWith3, hf]
        rw [ih n' m' (by simpa using h) (by simpa using h')]

theorem zipWith_congr_fun {α β γ : Type} (f g : α → β → γ)
    (h : ∀ a b, f a b = g a b) :
    ∀ (l : List α) (m : List β), List.zipWith f l m = List.zipWith g l m := by
  intro l
  induction l with
  | nil => intro m; simp
  | cons a l' ih =>
    intro m
    cases m with
    | nil => simp
    | cons b m' => simp only [List.zipWith_cons_cons, h, ih]

theorem isOk_exists {ε α : Type} {e : Except ε α} (h : e.isOk = true) :
    ∃ a, e = .ok a := by
  cases e with
  | ok a => exact ⟨a, rfl⟩
  | error _ => simp [Except.isOk, Except.toBool] at h

/-! ### Claim theorems -/

/-- C2: for a baseline record of 3 sections with radii `[0, 50, 100]` and
chords `[5, 4, 3]`, applying only the linear root chord shift with amount
`-1.0` and threshold `0.5` yields chords `[4.0, 3.5, 3.0]`: the first two
sections (normalized radii 0 and 0.5) are modified, the third is not. -/
theorem C2_root_linear_scenario :
    applyStack
      { offCfg with
        rootLinear := true
        rootLinearAmount := -1
        rootLinearThreshold := 1/2 }
      []
      (radiusNd [⟨0, 0, 5, 0⟩, ⟨50, 0, 4, 0⟩, ⟨100, 0, 3, 0⟩])
      [⟨0, 0, 5, 0⟩, ⟨50, 0, 4, 0⟩, ⟨100, 0, 3, 0⟩] =
      .ok [⟨0, 0, 4, 0⟩, ⟨50, 0, 7/2, 0⟩, ⟨100, 0, 3, 0⟩] := by
  norm_num [applyStack, offCfg, radiusNd, rootLinearChordAddition]

/-- C5: when the manual-profile root twist modifier is given a weight
sequence shorter than the number of sections its threshold predicate
selects, the operation fails with the configuration error (the Python
`IndexError` on `manual_multiplier[i]`, the condition the spec names
`ConfigurationError`). -/
theorem C5_supertwist_weight_shortfall (a t : ℚ) (w radius_nd : List ℚ)
    (mat : List Row) (hlen : radius_nd.length = mat.length)
    (hshort : w.length < radius_nd.countP (fun r => decide (r ≤ t))) :
    supertwistTheRoot a t w radius_nd mat = .error .configurationError := by
  obtain ⟨k, r, hk, hr, hge⟩ :=
    countP_exists_ge (fun r => decide (r ≤ t)) radius_nd w.length hshort
  have hklt : k < radius_nd.length := by
    obtain ⟨h, -⟩ := List.getElem?_eq_some.mp hk
    exact h
  have hkm : k < mat.length := hlen ▸ hklt
  obtain ⟨hm, hmat⟩ := List.getElem?_eq_some.mp
    (show mat[k]? = some mat[k] from List.getElem?_eq_getElem hkm)
  apply supertwistGo_error_of_exists
  refine ⟨k, r, mat[k], ?_, of_decide_eq_true hr, by omega⟩
  rw [zip_getElem?, hk, List.getElem?_eq_getElem hkm]

/-- Witness for C5: the spec's example, two weights for three selected
sections (all three normalized radii at or below threshold 1). -/
theorem C5_witness :
    supertwistTheRoot (-64) 1 [1, 4/5] [0, 1/2, 1]
      [⟨0, 0, 5, 0⟩, ⟨50, 0, 4, 0⟩, ⟨100, 0, 3, 0⟩] =
      .error .configurationError := by
  apply C5_supertwist_weight_shortfall
  · rfl
  · norm_num [List.countP_cons, List.countP_nil]

/-- C6 as stated is false: at a concretely non-monotonic twist radius
grid `[1, 0]` the read does not fail — `np.interp` performs no
monotonicity check, and the script raises no `MalformedInputError`. -/
theorem C6_counterexample :
    ¬ List.Pairwise (· < ·) [(1 : ℚ), 0] ∧
    (formatRead [0, 1] [5, 4] [100, 100] [1, 0] [10, 0]).isOk = true := by
  constructor
  · intro h
    have := (List.pairwise_cons.mp h).1 0 (by simp)
    norm_num at this
  · rfl

/-- C6 (amended): twist values are resampled onto the element table's
radius grid by piecewise-linear interpolation, but non-monotonic radius
values are not detected: the read never fails, for any input. -/
theorem C6_amended_interp_resampling :
    (∀ radius chord relThickness twistRadii twistVals : List ℚ,
      (formatRead radius chord relThickness twistRadii twistVals).isOk
        = true) ∧
    (mkGeoMat [0, 1/2, 1] [1, 1, 1] [100, 100, 100] [0, 1] [10, 0]).map
        Row.twist = [10, 5, 0] := by
  constructor
  · intro _ _ _ _ _; rfl
  · norm_num [mkGeoMat, npInterp, interpKnots, List.zipWith3, List.zip]

/-- C10: both twist resampling call sites use `npInterp`, which clamps
rather than extrapolates: a query at or below the first knot returns the
first twist value, a query at or beyond the last knot returns the last
twist value, and the result is total (never fails) for out-of-range
queries. -/
theorem C10_interp_clamps (x : ℚ) (xp fp : List ℚ)
    (hlen : xp.length = fp.length) (hne : xp ≠ [])
    (hs : List.Pairwise (· < ·) xp) :
    (x ≤ xp.headD 0 → npInterp x xp fp = fp.headD 0) ∧
    (xp.getLastD 0 ≤ x → npInterp x xp fp = fp.getLastD 0) := by
  cases xp with
  | nil => exact absurd rfl hne
  | cons a xp' =>
    cases fp with
    | nil => simp at hlen
    | cons b fp' =>
      constructor
      · intro hx
        have hpz := @pairwise_fst_zip (a :: xp') (b :: fp') hs
        rw [List.zip_cons_cons] at hpz
        have := interpKnots_left x a b (xp'.zip fp') hpz (by simpa using hx)
        simpa [npInterp, List.zip_cons_cons] using this
      · intro hx
        have hub : ∀ p ∈ (a, b) :: xp'.zip fp', p.1 ≤ x := by
          intro p hp
          obtain ⟨p1, p2⟩ := p
          have hmem : p1 ∈ a :: xp' := by
            rcases List.mem_cons.mp hp with h | h
            · rw [Prod.mk.injEq] at h
              rw [h.1]
              simp
            · exact List.mem_cons_of_mem _ (List.of_mem_zip h).1
          exact pairwise_lt_le_of_getLastD (a :: xp') hs hx p1 hmem
        have hr := interpKnots_right x (xp'.zip fp') a b hub
        rw [npInterp, List.zip_cons_cons, hr]
        have hz := zip_getLastD (a :: xp') (b :: fp') hlen (by simp)
        rw [List.zip_cons_cons] at hz
        rw [hz]

/-- Witness for C10: with knots at radii `[0, 1]` and twists `[10, 0]`,
a query at `-1` clamps to 10 and a query at `2` clamps to 0. -/
theorem C10_witness :
    npInterp (-1) [0, 1] [10, 0] = 10 ∧ npInterp 2 [0, 1] [10, 0] = 0 := by
  have h1 := C10_interp_clamps (-1) [0, 1] [10, 0] rfl (by simp) (by simp)
  have h2 := C10_interp_clamps 2 [0, 1] [10, 0] rfl (by simp) (by simp)
  exact ⟨by simpa using h1.1 (by norm_num), by simpa using h2.2 (by norm_num)⟩

/-- C4: the modifier phase never mutates the baseline record: for every
configuration, when the design phase completes, the baseline component of
its result is the untouched input record, and the output record is
produced by the stack from (a copy of) that baseline. -/
theorem C4_baseline_unchanged (cfg : Config) (ncos : List ℚ)
    (geo geo' w' : List Row)
    (h : runDesignPhase cfg ncos geo = .ok (geo', w')) :
    geo' = geo ∧ applyStack cfg ncos (radiusNd geo) geo = .ok w' := by
  rw [runDesignPhase] at h
  rw [exceptMap_eq_ok] at h
  obtain ⟨w, hw, heq⟩ := h
  rw [Prod.mk.injEq] at heq
  obtain ⟨h1, h2⟩ := heq
  subst h1
  subst h2
  exact ⟨rfl, hw⟩

/-- Witness for C4: a one-section record through the empty stack. -/
theorem C4_witness :
    ([⟨(100 : ℚ), 0, 5, 100⟩] : List Row) = [⟨(100 : ℚ), 0, 5, 100⟩] ∧
    applyStack offCfg [] (radiusNd [⟨(100 : ℚ), 0, 5, 100⟩])
      [⟨(100 : ℚ), 0, 5, 100⟩] = .ok [⟨(100 : ℚ), 0, 5, 100⟩] :=
  C4_baseline_unchanged offCfg [] [⟨(100 : ℚ), 0, 5, 100⟩]
    [⟨(100 : ℚ), 0, 5, 100⟩] [⟨(100 : ℚ), 0, 5, 100⟩]
    (by simp [runDesignPhase, applyStack, offCfg, Except.map])

/-- C3: for every threshold, each of the four root-selecting modifiers
(linear root chord shift, linear root twist shift, manual-profile root
twist shift, root cylindrical override) leaves every section with
normalized radius strictly above the threshold completely unchanged, and
applies its stated effect exactly to the sections at or below the
threshold (boundary inclusive). -/
theorem C3_selection_boundary :
    (∀ (a t : ℚ) (rnd : List ℚ) (mat : List Row) (k : Nat) (r : ℚ)
        (row : Row), rnd[k]? = some r → mat[k]? = some row →
        ((t < r → (rootLinearChordAddition a t rnd mat)[k]? = some row) ∧
         (r ≤ t → (rootLinearChordAddition a t rnd mat)[k]? =
            some { row with chord := row.chord - a * (r - 1) }))) ∧
    (∀ (a t : ℚ) (rnd : List ℚ) (mat : List Row) (k : Nat) (r : ℚ)
        (row : Row), rnd[k]? = some r → mat[k]? = some row →
        ((t < r → (twistTheRoot a t rnd mat)[k]? = some row) ∧
         (r ≤ t → (twistTheRoot a t rnd mat)[k]? =
            some { row with twist := row.twist + a * (-(r - 1)) }))) ∧
    (∀ (a t : ℚ) (w rnd : List ℚ) (mat out : List Row),
        supertwistTheRoot a t w rnd mat = .ok out →
        ∀ (k : Nat) (r : ℚ) (row : Row),
          rnd[k]? = some r → mat[k]? = some row →
          ((t < r → out[k]? = some row) ∧
           (r ≤ t → ∃ wk, w.get? k = some wk ∧
              out[k]? = some { row with twist := row.twist + a * wk }))) ∧
    (∀ (t : ℚ) (rnd : List ℚ) (mat : List Row) (k : Nat) (r : ℚ)
        (row : Row), rnd[k]? = some r → mat[k]? = some row →
        ((t < r → (makeRootCylindrical t rnd mat)[k]? = some row) ∧
         (r ≤ t → (makeRootCylindrical t rnd mat)[k]? =
            some { row with relThickness := 100 }))) := by
  refine ⟨?_, ?_, ?_, ?_⟩
  · intro a t rnd mat k r row hr hm
    rw [rootLinearChordAddition, List.getElem?_zipWith, hr, hm]
    constructor
    · intro hlt; simp [not_le.mpr hlt]
    · intro hle; simp [hle]
  · intro a t rnd mat k r row hr hm
    rw [twistTheRoot, List.getElem?_zipWith, hr, hm]
    constructor
    · intro hlt; simp [not_le.mpr hlt]
    · intro hle; simp [hle]
  · intro a t w rnd mat out h k r row hr hm
    have hz : (rnd.zip mat)[k]? = some (r, row) := by
      rw [zip_getElem?, hr, hm]
    have := supertwistGo_ok_getElem? a t w (rnd.zip mat) 0 out h k r row hz
    simpa using this
  · intro t rnd mat k r row hr hm
    rw [makeRootCylindrical, List.getElem?_zipWith, hr, hm]
    constructor
    · intro hlt; simp [not_le.mpr hlt]
    · intro hle; simp [hle]

/-- Witness for C3: with threshold 1/2 over normalized radii `[0, 1]`,
the linear root chord shift leaves the out-of-range second section
unchanged and shifts the chord of the selected first section. -/
theorem C3_witness :
    (rootLinearChordAddition 1 (1/2) [0, 1]
      [⟨0, 10, 5, 50⟩, ⟨100, 0, 3, 50⟩])[1]? = some ⟨100, 0, 3, 50⟩ ∧
    (rootLinearChordAddition 1 (1/2) [0, 1]
      [⟨0, 10, 5, 50⟩, ⟨100, 0, 3, 50⟩])[0]? = some ⟨0, 10, 6, 50⟩ := by
  constructor
  · exact (C3_selection_boundary.1 1 (1/2) [0, 1]
      [⟨0, 10, 5, 50⟩, ⟨100, 0, 3, 50⟩] 1 1 ⟨100, 0, 3, 50⟩ rfl rfl).1
      (by norm_num)
  · have := (C3_selection_boundary.1 1 (1/2) [0, 1]
      [⟨0, 10, 5, 50⟩, ⟨100, 0, 3, 50⟩] 0 0 ⟨0, 10, 5, 50⟩ rfl rfl).2
      (by norm_num)
    rw [this]
    norm_num

theorem rootLinear_cols (a t : ℚ) (rnd : List ℚ) (m : List Row)
    (h : rnd.length = m.length) :
    (rootLinearChordAddition a t rnd m).map Row.radius = m.map Row.radius ∧
    (rootLinearChordAddition a t rnd m).map Row.twist = m.map Row.twist ∧
    (rootLinearChordAddition a t rnd m).map Row.relThickness =
      m.map Row.relThickness ∧
    (rootLinearChordAddition a t rnd m).length = m.length := by
  rw [rootLinearChordAddition]
  refine ⟨?_, ?_, ?_, zipWith_length_eq _ _ _ h⟩ <;>
    exact zipWith_map_eq _ _
      (by intro r row; by_cases hc : r ≤ t <;> simp [hc]) rnd m h

theorem tipCos_cols (a t : ℚ) (ncos rnd : List ℚ) (m : List Row)
    (h : rnd.length = m.length) (h' : ncos.length = m.length) :
    (tipCosChordAddition a t ncos rnd m).map Row.radius =
      m.map Row.radius ∧
    (tipCosChordAddition a t ncos rnd m).map Row.twist = m.map Row.twist ∧
    (tipCosChordAddition a t ncos rnd m).map Row.relThickness =
      m.map Row.relThickness ∧
    (tipCosChordAddition a t ncos rnd m).length = m.length := by
  rw [tipCosChordAddition]
  refine ⟨?_, ?_, ?_, zipWith3_length_eq _ _ _ _ h h'⟩ <;>
    exact zipWith3_map_eq _ _
      (by intro r n row; by_cases hc : t ≤ r <;> simp [hc]) rnd ncos m h h'

theorem cosFull_cols (a : ℚ) (ncos : List ℚ) (m : List Row)
    (h' : ncos.length = m.length) :
    (cosChordAddition a ncos m).map Row.radius = m.map Row.radius ∧
    (cosChordAddition a ncos m).map Row.twist = m.map Row.twist ∧
    (cosChordAddition a ncos m).map Row.relThickness =
      m.map Row.relThickness ∧
    (cosChordAddition a ncos m).length = m.length := by
  rw [cosChordAddition]
  refine ⟨?_, ?_, ?_, zipWith_length_eq _ _ _ h'⟩ <;>
    exact zipWith_map_eq _ _ (by intro n row; simp) ncos m h'

theorem twistRoot_cols (a t : ℚ) (rnd : List ℚ) (m : List Row)
    (h : rnd.length = m.length) :
    (twistTheRoot a t rnd m).map Row.radius = m.map Row.radius ∧
    (twistTheRoot a t rnd m).map Row.chord = m.map Row.chord ∧
    (twistTheRoot a t rnd m).map Row.relThickness =
      m.map Row.relThickness ∧
    (twistTheRoot a t rnd m).length = m.length := by
  rw [twistTheRoot]
  refine ⟨?_, ?_, ?_, zipWith_length_eq _ _ _ h⟩ <;>
    exact zipWith_map_eq _ _
      (by intro r row; by_cases hc : r ≤ t <;> simp [hc]) rnd m h

theorem supertwist_ok_cols (a t : ℚ) (w rnd : List ℚ) (m out : List Row)
    (hlen : rnd.length = m.length)
    (h : supertwistTheRoot a t w rnd m = .ok out) :
    out.map Row.radius = m.map Row.radius ∧
    out.map Row.chord = m.map Row.chord ∧
    out.map Row.relThickness = m.map Row.relThickness ∧
    out.length = m.length := by
  have hsnd : (rnd.zip m).map Prod.snd = m :=
    List.map_snd_zip _ _ (le_of_eq hlen.symm)
  rw [supertwistTheRoot] at h
  refine ⟨?_, ?_, ?_, ?_⟩
  · rw [supertwistGo_map_eq a t w Row.radius (by intro row x; rfl) _ 0 out h,
      hsnd]
  · rw [supertwistGo_map_eq a t w Row.chord (by intro row x; rfl) _ 0 out h,
      hsnd]
  · rw [supertwistGo_map_eq a t w Row.relThickness (by intro row x; rfl)
      _ 0 out h, hsnd]
  · rw [supertwistGo_ok_length a t w _ 0 out h, List.length_zip, hlen,
      min_self]

theorem makeCyl_cols (t : ℚ) (rnd : List ℚ) (m : List Row)
    (h : rnd.length = m.length) :
    (makeRootCylindrical t rnd m).map Row.radius = m.map Row.radius ∧
    (makeRootCylindrical t rnd m).map Row.twist = m.map Row.twist ∧
    (makeRootCylindrical t rnd m).map Row.chord = m.map Row.chord ∧
    (makeRootCylindrical t rnd m).length = m.length := by
  rw [makeRootCylindrical]
  refine ⟨?_, ?_, ?_, zipWith_length_eq _ _ _ h⟩ <;>
    exact zipWith_map_eq _ _
      (by intro r row; by_cases hc : r ≤ t <;> simp [hc]) rnd m h

theorem applyStack_ok_radius (cfg : Config) (ncos rnd : List ℚ)
    (mat out : List Row) (h1 : rnd.length = mat.length)
    (h2 : ncos.length = mat.length)
    (h : applyStack cfg ncos rnd mat = .ok out) :
    out.map Row.radius = mat.map Row.radius ∧ out.length = mat.length := by
  simp only [applyStack] at h
  have s1 := fun (m : List Row) (hm : rnd.length = m.length) =>
    rootLinear_cols cfg.rootLinearAmount cfg.rootLinearThreshold rnd m hm
  set m1 := if cfg.rootLinear then
      rootLinearChordAddition cfg.rootLinearAmount cfg.rootLinearThreshold
        rnd mat
    else mat with hm1
  have f1 : m1.map Row.radius = mat.map Row.radius ∧ m1.length = mat.length := by
    rw [hm1]
    cases hc : cfg.rootLinear
    · simp
    · simpa using ⟨(s1 mat h1).1, (s1 mat h1).2.2.2⟩
  set m2 := if cfg.tipCos then
      tipCosChordAddition cfg.tipCosAmount cfg.tipCosThreshold ncos rnd m1
    else m1 with hm2
  have f2 : m2.map Row.radius = mat.map Row.radius ∧ m2.length = mat.length := by
    rw [hm2]
    cases hc : cfg.tipCos
    · simpa using f1
    · have := tipCos_cols cfg.tipCosAmount cfg.tipCosThreshold ncos rnd m1
        (by omega) (by omega)
      simp only [if_pos rfl]
      exact ⟨this.1.trans f1.1, this.2.2.2.trans f1.2⟩
  set m3 := if cfg.cosFull then cosChordAddition cfg.cosFullAmount ncos m2
    else m2 with hm3
  have f3 : m3.map Row.radius = mat.map Row.radius ∧ m3.length = mat.length := by
    rw [hm3]
    cases hc : cfg.cosFull
    · simpa using f2
    · have := cosFull_cols cfg.cosFullAmount ncos m2 (by omega)
      simp only [if_pos rfl]
      exact ⟨this.1.trans f2.1, this.2.2.2.trans f2.2⟩
  set m4 := if cfg.twistRoot then
      twistTheRoot cfg.twistRootAmount cfg.twistRootThreshold rnd m3
    else m3 with hm4
  have f4 : m4.map Row.radius = mat.map Row.radius ∧ m4.length = mat.length := by
    rw [hm4]
    cases hc : cfg.twistRoot
    · simpa using f3
    · have := twistRoot_cols cfg.twistRootAmount cfg.twistRootThreshold rnd
        m3 (by omega)
      simp only [if_pos rfl]
      exact ⟨this.1.trans f3.1, this.2.2.2.trans f3.2⟩
  cases hsw : cfg.supertwist
  · rw [hsw] at h
    simp only [Bool.false_eq_true, if_false] at h
    have hout : out = if cfg.makeCyl then
        makeRootCylindrical cfg.makeCylThreshold rnd m4 else m4 := by
      cases h; rfl
    cases hcy : cfg.makeCyl
    · rw [hcy] at hout
      simp only [Bool.false_eq_true, if_false] at hout
      rw [hout]; exact f4
    · rw [hcy] at hout
      simp only [if_pos rfl] at hout
      have := makeCyl_cols cfg.makeCylThreshold rnd m4 (by omega)
      rw [hout]
      exact ⟨this.1.trans f4.1, this.2.2.2.trans f4.2⟩
  · rw [hsw] at h
    simp only [eq_self_iff_true, if_true] at h
    cases hst : supertwistTheRoot cfg.supertwistAmount
        cfg.supertwistThreshold cfg.supertwistWeights rnd m4 with
    | error e => rw [hst] at h; simp at h
    | ok m5 =>
      rw [hst] at h
      simp only [Except.ok.injEq] at h
      have f5 := supertwist_ok_cols cfg.supertwistAmount
        cfg.supertwistThreshold cfg.supertwistWeights rnd m4 m5
        (by omega) hst
      have f5' : m5.map Row.radius = mat.map Row.radius ∧
          m5.length = mat.length :=
        ⟨f5.1.trans f4.1, f5.2.2.2.trans f4.2⟩
      cases hcy : cfg.makeCyl
      · rw [hcy] at h
        simp only [Bool.false_eq_true, if_false] at h
        rw [← h]; exact f5'
      · rw [hcy] at h
        simp only [if_pos rfl] at h
        have := makeCyl_cols cfg.makeCylThreshold rnd m5 (by omega)
        rw [← h]
        exact ⟨this.1.trans f5'.1, this.2.2.2.trans f5'.2⟩

/-- C9: every modifier writes only its own target column — the chord
modifiers preserve radius, twist and relative thickness; the twist
modifiers preserve radius, chord and relative thickness; the cylindrical
override preserves radius, twist and chord — and consequently the whole
stack preserves the radius column, its strict increase, and the
normalized-radius coordinate. -/
theorem C9_column_frame :
    (∀ (a t : ℚ) (rnd : List ℚ) (m : List Row), rnd.length = m.length →
      (rootLinearChordAddition a t rnd m).map Row.radius =
          m.map Row.radius ∧
      (rootLinearChordAddition a t rnd m).map Row.twist = m.map Row.twist ∧
      (rootLinearChordAddition a t rnd m).map Row.relThickness =
          m.map Row.relThickness) ∧
    (∀ (a t : ℚ) (ncos rnd : List ℚ) (m : List Row), rnd.length = m.length →
      ncos.length = m.length →
      (tipCosChordAddition a t ncos rnd m).map Row.radius =
          m.map Row.radius ∧
      (tipCosChordAddition a t ncos rnd m).map Row.twist =
          m.map Row.twist ∧
      (tipCosChordAddition a t ncos rnd m).map Row.relThickness =
          m.map Row.relThickness) ∧
    (∀ (a : ℚ) (ncos : List ℚ) (m : List Row), ncos.length = m.length →
      (cosChordAddition a ncos m).map Row.radius = m.map Row.radius ∧
      (cosChordAddition a ncos m).map Row.twist = m.map Row.twist ∧
      (cosChordAddition a ncos m).map Row.relThickness =
          m.map Row.relThickness) ∧
    (∀ (a t : ℚ) (rnd : List ℚ) (m : List Row), rnd.length = m.length →
      (twistTheRoot a t rnd m).map Row.radius = m.map Row.radius ∧
      (twistTheRoot a t rnd m).map Row.chord = m.map Row.chord ∧
      (twistTheRoot a t rnd m).map Row.relThickness =
          m.map Row.relThickness) ∧
    (∀ (a t : ℚ) (w rnd : List ℚ) (m out : List Row),
      rnd.length = m.length → supertwistTheRoot a t w rnd m = .ok out →
      out.map Row.radius = m.map Row.radius ∧
      out.map Row.chord = m.map Row.chord ∧
      out.map Row.relThickness = m.map Row.relThickness) ∧
    (∀ (t : ℚ) (rnd : List ℚ) (m : List Row), rnd.length = m.length →
      (makeRootCylindrical t rnd m).map Row.radius = m.map Row.radius ∧
      (makeRootCylindrical t rnd m).map Row.twist = m.map Row.twist ∧
      (makeRootCylindrical t rnd m).map Row.chord = m.map Row.chord) ∧
    (∀ (cfg : Config) (ncos rnd : List ℚ) (mat out : List Row),
      rnd.length = mat.length → ncos.length = mat.length →
      applyStack cfg ncos rnd mat = .ok out →
      out.map Row.radius = mat.map Row.radius ∧
      (List.Pairwise (· < ·) (out.map Row.radius) ↔
        List.Pairwise (· < ·) (mat.map Row.radius)) ∧
      radiusNd out = radiusNd mat) := by
  refine ⟨?_, ?_, ?_, ?_, ?_, ?_, ?_⟩
  · intro a t rnd m h
    have := rootLinear_cols a t rnd m h
    exact ⟨this.1, this.2.1, this.2.2.1⟩
  · intro a t ncos rnd m h h'
    have := tipCos_cols a t ncos rnd m h h'
    exact ⟨this.1, this.2.1, this.2.2.1⟩
  · intro a ncos m h'
    have := cosFull_cols a ncos m h'
    exact ⟨this.1, this.2.1, this.2.2.1⟩
  · intro a t rnd m h
    have := twistRoot_cols a t rnd m h
    exact ⟨this.1, this.2.1, this.2.2.1⟩
  · intro a t w rnd m out h hok
    have := supertwist_ok_cols a t w rnd m out h hok
    exact ⟨this.1, this.2.1, this.2.2.1⟩
  · intro t rnd m h
    have := makeCyl_cols t rnd m h
    exact ⟨this.1, this.2.1, this.2.2.1⟩
  · intro cfg ncos rnd mat out h1 h2 hok
    have := applyStack_ok_radius cfg ncos rnd mat out h1 h2 hok
    refine ⟨this.1, by rw [this.1], ?_⟩
    rw [radiusNd, radiusNd, this.1]

/-- Witness for C9: the cylindrical override on a two-section record
changes no radius value, and the stack with only it enabled keeps the
normalized-radius coordinate. -/
theorem C9_witness :
    (makeRootCylindrical (1/4) [1/10, 1]
        [⟨10, 0, 5, 50⟩, ⟨100, 0, 4, 60⟩]).map Row.radius =
      ([⟨10, 0, 5, 50⟩, ⟨100, 0, 4, 60⟩] : List Row).map Row.radius ∧
    (makeRootCylindrical (1/4) [1/10, 1]
        [⟨10, 0, 5, 50⟩, ⟨100, 0, 4, 60⟩]).map Row.twist =
      ([⟨10, 0, 5, 50⟩, ⟨100, 0, 4, 60⟩] : List Row).map Row.twist ∧
    (makeRootCylindrical (1/4) [1/10, 1]
        [⟨10, 0, 5, 50⟩, ⟨100, 0, 4, 60⟩]).map Row.chord =
      ([⟨10, 0, 5, 50⟩, ⟨100, 0, 4, 60⟩] : List Row).map Row.chord :=
  (C9_column_frame.2.2.2.2.2.1) (1/4) [1/10, 1]
    [⟨10, 0, 5, 50⟩, ⟨100, 0, 4, 60⟩] rfl

theorem applyStack_zero_eq (cfg : Config) (ncos rnd : List ℚ)
    (mat : List Row)
    (ha1 : cfg.rootLinearAmount = 0) (ha2 : cfg.tipCosAmount = 0)
    (ha3 : cfg.cosFullAmount = 0) (ha4 : cfg.twistRootAmount = 0)
    (ha5 : cfg.supertwistAmount = 0)
    (h1 : rnd.length = mat.length) (h2 : ncos.length = mat.length) :
    applyStack cfg ncos rnd mat =
      (if cfg.supertwist then
        supertwistTheRoot cfg.supertwistAmount cfg.supertwistThreshold
          cfg.supertwistWeights rnd mat
      else .ok mat).map
        (fun _ => if cfg.makeCyl then
          makeRootCylindrical cfg.makeCylThreshold rnd mat else mat) := by
  have e1 : rootLinearChordAddition cfg.rootLinearAmount
      cfg.rootLinearThreshold rnd mat = mat := by
    rw [ha1, rootLinearChordAddition]
    exact zipWith_id_of _
      (by intro r row; by_cases hc : r ≤ cfg.rootLinearThreshold <;>
        simp [hc]) rnd mat h1
  have e2 : tipCosChordAddition cfg.tipCosAmount cfg.tipCosThreshold ncos
      rnd mat = mat := by
    rw [ha2, tipCosChordAddition]
    exact zipWith3_id_of _
      (by intro r n row; by_cases hc : cfg.tipCosThreshold ≤ r <;>
        simp [hc]) rnd ncos mat h1 h2
  have e3 : cosChordAddition cfg.cosFullAmount ncos mat = mat := by
    rw [ha3, cosChordAddition]
    exact zipWith_id_of _ (by intro n row; simp) ncos mat h2
  have e4 : twistTheRoot cfg.twistRootAmount cfg.twistRootThreshold rnd
      mat = mat := by
    rw [ha4, twistTheRoot]
    exact zipWith_id_of _
      (by intro r row; by_cases hc : r ≤ cfg.twistRootThreshold <;>
        simp [hc]) rnd mat h1
  simp only [applyStack]
  rw [show (if cfg.rootLinear then rootLinearChordAddition
      cfg.rootLinearAmount cfg.rootLinearThreshold rnd mat else mat) = mat
    by cases cfg.rootLinear <;> simp [e1]]
  rw [show (if cfg.tipCos then tipCosChordAddition cfg.tipCosAmount
      cfg.tipCosThreshold ncos rnd mat else mat) = mat
    by cases cfg.tipCos <;> simp [e2]]
  rw [show (if cfg.cosFull then cosChordAddition cfg.cosFullAmount ncos mat
      else mat) = mat by cases cfg.cosFull <;> simp [e3]]
  rw [show (if cfg.twistRoot then twistTheRoot cfg.twistRootAmount
      cfg.twistRootThreshold rnd mat else mat) = mat
    by cases cfg.twistRoot <;> simp [e4]]
  cases hsw : cfg.supertwist
  · simp [Except.map]
  · simp only [if_true]
    cases hst : supertwistTheRoot cfg.supertwistAmount
        cfg.supertwistThreshold cfg.supertwistWeights rnd mat with
    | error e => simp [Except.map]
    | ok m5 =>
      have hm5 : m5 = mat := by
        rw [supertwistTheRoot, ha5] at hst
        rw [supertwistGo_zero cfg.supertwistThreshold cfg.supertwistWeights
          _ 0 m5 hst]
        exact List.map_snd_zip _ _ (le_of_eq h1.symm)
      simp [Except.map, hm5]

/-- C8 as stated is false: with the (zero-amount-free) cylindrical root
override enabled and every amount zero, applying the stack twice is not a
no-op — the first section's relative thickness is overwritten with 100. -/
theorem C8_counterexample :
    (applyStack cylOnlyCfg [0, 0] [1/10, 1]
        [⟨10, 0, 5, 50⟩, ⟨100, 0, 4, 60⟩]).bind
      (applyStack cylOnlyCfg [0, 0] [1/10, 1]) =
      .ok [⟨10, 0, 5, 100⟩, ⟨100, 0, 4, 60⟩] ∧
    ([⟨10, 0, 5, 100⟩, ⟨100, 0, 4, 60⟩] : List Row) ≠
      [⟨10, 0, 5, 50⟩, ⟨100, 0, 4, 60⟩] := by
  constructor
  · norm_num [applyStack, cylOnlyCfg, offCfg, makeRootCylindrical,
      Except.bind]
  · intro hx
    rw [List.cons.injEq, Row.mk.injEq] at hx
    norm_num at hx

/-- C8 (amended): with every amount zero, the stack is a no-op on every
field whenever the cylindrical override is disabled; with it enabled the
stack may overwrite `rel_thickness` of root sections, but applying the
same zero-amount set twice yields the same record as applying it once. -/
theorem C8_amended_zero_idempotent (cfg : Config) (ncos rnd : List ℚ)
    (mat out : List Row)
    (ha1 : cfg.rootLinearAmount = 0) (ha2 : cfg.tipCosAmount = 0)
    (ha3 : cfg.cosFullAmount = 0) (ha4 : cfg.twistRootAmount = 0)
    (ha5 : cfg.supertwistAmount = 0)
    (h1 : rnd.length = mat.length) (h2 : ncos.length = mat.length)
    (h : applyStack cfg ncos rnd mat = .ok out) :
    (cfg.makeCyl = false → out = mat) ∧
    applyStack cfg ncos rnd out = .ok out := by
  rw [applyStack_zero_eq cfg ncos rnd mat ha1 ha2 ha3 ha4 ha5 h1 h2] at h
  have hout : out = if cfg.makeCyl then
      makeRootCylindrical cfg.makeCylThreshold rnd mat else mat := by
    cases hsw : cfg.supertwist
    · rw [hsw] at h
      simp only [Bool.false_eq_true, if_false, Except.map] at h
      exact (Except.ok.injEq .. ▸ h).symm
    · rw [hsw] at h
      simp only [if_true] at h
      rw [exceptMap_eq_ok] at h
      obtain ⟨m5, -, hc⟩ := h
      exact hc.symm
  have hlen : out.length = mat.length := by
    rw [hout]
    cases hcy : cfg.makeCyl
    · simp
    · simp only [if_true]
      exact (makeCyl_cols cfg.makeCylThreshold rnd mat (by omega)).2.2.2
  have hcylfix : (if cfg.makeCyl then
      makeRootCylindrical cfg.makeCylThreshold rnd out else out) = out := by
    cases hcy : cfg.makeCyl
    · simp
    · simp only [if_true]
      rw [hout, hcy]
      simp only [if_true]
      rw [makeRootCylindrical, makeRootCylindrical, zipWith_zipWith_same]
      exact zipWith_congr_fun _ _
        (by intro r row; by_cases hc : r ≤ cfg.makeCylThreshold <;>
          simp [hc]) rnd mat
  constructor
  · intro hcy
    rw [hout, hcy]
    simp
  · rw [applyStack_zero_eq cfg ncos rnd out ha1 ha2 ha3 ha4 ha5
      (by omega) (by omega)]
    cases hsw : cfg.supertwist
    · simp only [Bool.false_eq_true, if_false, Except.map]
      rw [hcylfix]
    · simp only [if_true]
      have hokmat : (supertwistTheRoot cfg.supertwistAmount
          cfg.supertwistThreshold cfg.supertwistWeights rnd mat).isOk
          = true := by
        rw [hsw] at h
        simp only [if_true] at h
        rw [exceptMap_eq_ok] at h
        obtain ⟨m5, hm5, -⟩ := h
        rw [hm5]
        rfl
      have hfst : (rnd.zip mat).map Prod.fst = (rnd.zip out).map Prod.fst := by
        rw [List.map_fst_zip _ _ (le_of_eq h1),
          List.map_fst_zip _ _ (le_of_eq (by omega))]
      have hokout : (supertwistTheRoot cfg.supertwistAmount
          cfg.supertwistThreshold cfg.supertwistWeights rnd out).isOk
          = true := by
        rw [supertwistTheRoot] at hokmat ⊢
        rw [← supertwistGo_isOk_congr cfg.supertwistAmount
          cfg.supertwistAmount cfg.supertwistThreshold
          cfg.supertwistWeights (rnd.zip mat) (rnd.zip out) 0 hfst]
        exact hokmat
      obtain ⟨out5, hout5⟩ := isOk_exists hokout
      rw [hout5]
      simp only [Except.map]
      rw [hcylfix]

/-- Witness for C8 (amended): the zero-amount cylinder-only stack applied
to its own output returns that output unchanged. -/
theorem C8_witness :
    (cylOnlyCfg.makeCyl = false →
      ([⟨10, 0, 5, 100⟩, ⟨100, 0, 4, 60⟩] : List Row) =
        [⟨10, 0, 5, 50⟩, ⟨100, 0, 4, 60⟩]) ∧
    applyStack cylOnlyCfg [0, 0] [1/10, 1]
      [⟨10, 0, 5, 100⟩, ⟨100, 0, 4, 60⟩] =
      .ok [⟨10, 0, 5, 100⟩, ⟨100, 0, 4, 60⟩] :=
  C8_amended_zero_idempotent cylOnlyCfg [0, 0] [1/10, 1]
    [⟨10, 0, 5, 50⟩, ⟨100, 0, 4, 60⟩] [⟨10, 0, 5, 100⟩, ⟨100, 0, 4, 60⟩]
    rfl rfl rfl rfl rfl rfl rfl
    (by norm_num [applyStack, cylOnlyCfg, offCfg, makeRootCylindrical])

/-- C7 as stated is false: when the first `shutil.copy` succeeds and the
second fails, the run aborts but the copied configuration file has
already been created — a partial side effect. -/
theorem C7_counterexample :
    copyPhase (· == newHtcPathStr) [] = .error [newHtcPathStr] ∧
    ([newHtcPathStr] : List String) ≠ [] := by
  constructor
  · rfl
  · simp

/-- C7 (amended): a failure of the first copy aborts the run with no
file created; a failure of the second copy aborts the run with exactly
the copied configuration file created.  In both cases the rewrite phase
is never reached, so no further output is produced. -/
theorem C7_amended_copy_abort (copyOk : String → Bool) (fs : List String) :
    (copyOk newHtcPathStr = false → copyPhase copyOk fs = .error fs) ∧
    (copyOk newHtcPathStr = true → copyOk newAePathStr = false →
      copyPhase copyOk fs = .error (newHtcPathStr :: fs)) := by
  constructor
  · intro h; rw [copyPhase]; simp [h]
  · intro h h'; rw [copyPhase]; simp [h, h']

/-- Witness for C7 (amended): when every copy fails, the run aborts with
no file created. -/
theorem C7_witness :
    copyPhase (fun _ => false) [] = .error [] :=
  (C7_amended_copy_abort (fun _ => false) []).1 rfl

/-- The baseline record of the C1 counterexample: radii `[0, 50, 100]`,
chords `[5, 4, 3]`, thicknesses `[100, 100, 50]`, twist table
`[(0, 10), (100, 0)]`. -/
def geoEx : List Row :=
  mkGeoMat [0, 50, 100] [5, 4, 3] [100, 100, 50] [0, 100] [10, 0]

/-- C1 as stated is false: even with no modifier enabled, the rewritten
configuration file is not byte-identical on its non-geometry lines — the
`ae_filename` reference line (line 50 of the example file, outside the
twist-table range) is replaced with a path naming the new design. -/
theorem C1_counterexample :
    applyStack offCfg [] (radiusNd geoEx) geoEx = .ok geoEx ∧
    (writePhase (fun _ => "0.0") [0, 100] geoEx htcExample
        ["25 3\n", "1\n"]).1[50]? = some aeRefLine ∧
    htcExample[50]? = some "\tae_filename ./data/DTU_10MW_RWT_ae.dat;\n" ∧
    aeRefLine ≠ "\tae_filename ./data/DTU_10MW_RWT_ae.dat;\n" := by
  have hline : htcExample[50]? =
      some "\tae_filename ./data/DTU_10MW_RWT_ae.dat;\n" := by
    rw [htcExample, List.getElem?_map, List.getElem?_range (by norm_num)]
    rfl
  refine ⟨?_, ?_, hline, ?_⟩
  · simp [applyStack, offCfg, Except.map]
  · rw [writePhase, newHtcContent, mapIdxFrom_getElem?, hline]
    rfl
  · decide

/-- C1 (amended): with no modifier enabled the stack returns the record
read unchanged; the configuration-file rewrite leaves every line outside
the twist-table range that does not contain `ae_filename` byte-identical;
the element-table rewrite leaves the two header lines byte-identical and
rewrites each data row's first three tab-delimited fields to the
serialized radius, chord and relative thickness of the corresponding
record row, preserving all further fields and the tab delimiter.  (The
`ae_filename` line is rewritten to the new design's path, and whitespace
inside rewritten lines is normalized, so full byte-identity of
non-geometry content does not hold.) -/
theorem C1_amended_roundtrip :
    (∀ (cfg : Config) (ncos rnd : List ℚ) (mat : List Row),
      cfg.rootLinear = false → cfg.tipCos = false → cfg.cosFull = false →
      cfg.twistRoot = false → cfg.supertwist = false →
      cfg.makeCyl = false → applyStack cfg ncos rnd mat = .ok mat) ∧
    (∀ (ts content : List String) (i : Nat) (line : String),
      content[i]? = some line → ¬(htcStartLine ≤ i ∧ i < htcEndLine) →
      strContains line "ae_filename" = false →
      (newHtcContent ts content)[i]? = some line) ∧
    (∀ (fmt : ℚ → String) (mat : List Row) (content : List String)
        (i : Nat) (line : String), content[i]? = some line →
      i < aeStartLine → (newAeContent fmt mat content)[i]? = some line) ∧
    (∀ (fmt : ℚ → String) (mat : List Row) (content : List String)
        (i : Nat) (line : String) (row : Row),
      content[i]? = some line → aeStartLine ≤ i →
      mat[i - aeStartLine]? = some row →
      3 ≤ (pySplit '\t' (pyStrip line)).length →
      ∃ toks : List String,
        (newAeContent fmt mat content)[i]? =
          some (String.intercalate "\t" toks ++ "\n") ∧
        toks[0]? = some (fmt row.radius) ∧
        toks[1]? = some (fmt row.chord) ∧
        toks[2]? = some (fmt row.relThickness) ∧
        toks.length = (pySplit '\t' (pyStrip line)).length ∧
        ∀ j, 3 ≤ j → toks[j]? = (pySplit '\t' (pyStrip line))[j]?) := by
  refine ⟨?_, ?_, ?_, ?_⟩
  · intro cfg ncos rnd mat f1 f2 f3 f4 f5 f6
    simp [applyStack, f1, f2, f3, f4, f5, f6, Except.map]
  · intro ts content i line hc hrange hsub
    rw [newHtcContent, mapIdxFrom_getElem?, hc]
    simp only [Nat.zero_add, Option.map_some']
    rw [if_neg hrange, if_neg (by rw [hsub]; exact Bool.false_ne_true)]
  · intro fmt mat content i line hc hi
    rw [newAeContent, mapIdxFrom_getElem?, hc]
    simp only [Nat.zero_add, Option.map_some']
    rw [if_neg (by simp only [aeStartLine] at hi ⊢; omega)]
  · intro fmt mat content i line row hc hi hrow htoks
    rw [newAeContent, mapIdxFrom_getElem?, hc]
    simp only [Nat.zero_add, Option.map_some']
    rw [if_pos hi]
    rw [rebuildAeLine]
    have hgetD : mat.getD (i - aeStartLine) default = row := by
      rw [List.getD_eq_getElem?_getD, hrow]
      rfl
    rw [hgetD]
    refine ⟨(((pySplit '\t' (pyStrip line)).set 0 (fmt row.radius)).set 1
      (fmt row.chord)).set 2 (fmt row.relThickness), rfl, ?_, ?_, ?_, ?_,
      ?_⟩
    · have h0 : 0 < (pySplit '\t' (pyStrip line)).length := by omega
      simp [List.getElem?_set, List.length_set, h0]
    · have h1 : 1 < (pySplit '\t' (pyStrip line)).length := by omega
      simp [List.getElem?_set, List.length_set, h1]
    · have h2 : 2 < (pySplit '\t' (pyStrip line)).length := by omega
      simp [List.getElem?_set, List.length_set, h2]
    · simp [List.length_set]
    · intro j hj
      simp only [List.getElem?_set, List.length_set]
      rw [if_neg (by omega), if_neg (by omega), if_neg (by omega)]

/-- Witness for C1 (amended): a comment line outside the twist range is
preserved by the configuration-file rewrite, and a header line is
preserved by the element-table rewrite. -/
theorem C1_witness :
    (newHtcContent [] [";dummy\n"])[0]? = some ";dummy\n" ∧
    (newAeContent (fun _ => "0") [] ["header\n"])[0]? = some "header\n" :=
  ⟨C1_amended_roundtrip.2.1 [] [";dummy\n"] 0 ";dummy\n" rfl
      (by norm_num [htcStartLine, htcEndLine, nSec]) rfl,
    C1_amended_roundtrip.2.2.1 (fun _ => "0") [] ["header\n"] 0 "header\n"
      rfl (by norm_num [aeStartLine])⟩

end Blade
